import Mathlib

/-!
# gopen-gateway: the cache model (`internal/domain/model/vo/cache.go`)

A shallow embedding of the cache value objects `Cache` and `EndpointCache`,
of the merge `newEndpointCache`, of the admission predicates `CanRead`,
`CanWrite`, `AllowMethod` and `AllowStatusCode`, of the cache key `StrategyKey`,
and of `fillEnvValues` from `cmd/main.go`.

Representation choices:
* a Go slice that may be `nil` is an `Option (List α)`: `none` is the nil
  slice, `some []` the non-nil slice of length zero;
* a `*bool` is an `Option Bool`;
* a `time.Duration` is an `Int` counting nanoseconds, a status code an `Int`;
* a pointer to a struct that may be `nil` is an `Option` of the struct.
-/

namespace Gopen

/-! ## The `go-helper` calls used by `cache.go`

`helper` is an external library. Each function below is the reading of the
call, at the argument types `cache.go` uses it with, that the comments of
`cache.go` rely on. -/

namespace helper

/-- `helper.IsNil` on a pointer or slice value. -/
def IsNil {α : Type} (a : Option α) : Bool :=
  a.isNone

/-- `helper.IsNotNil` on a pointer or slice value. -/
def IsNotNil {α : Type} (a : Option α) : Bool :=
  !IsNil a

/-- `helper.IsEmpty` on a slice: its length is zero. -/
def IsEmpty {α : Type} (a : Option (List α)) : Bool :=
  match a with
  | none => true
  | some l => l.isEmpty

/-- `helper.Equals` on two values of the same comparable type. -/
def Equals {α : Type} [DecidableEq α] (a b : α) : Bool :=
  decide (a = b)

/-- `helper.IsNotEqualTo` on two values of the same comparable type. -/
def IsNotEqualTo {α : Type} [DecidableEq α] (a b : α) : Bool :=
  !Equals a b

/-- `helper.Contains` on a slice and a candidate element. -/
def Contains {α : Type} [DecidableEq α] (a : Option (List α)) (b : α) : Bool :=
  match a with
  | none => false
  | some l => decide (b ∈ l)

/-- `helper.IsGreaterThan` on two integers. -/
def IsGreaterThan (a b : Int) : Bool :=
  decide (b < a)

/-- `helper.IsGreaterThanOrEqual` on two integers. -/
def IsGreaterThanOrEqual (a b : Int) : Bool :=
  decide (b ≤ a)

/-- `helper.IsLessThanOrEqual` on two integers. -/
def IsLessThanOrEqual (a b : Int) : Bool :=
  decide (a ≤ b)

end helper

/-! ## Constants -/

/-- `time.Minute` of the Go standard library, in nanoseconds. -/
def timeMinute : Int := 60000000000

/-- `http.MethodGet` of the Go standard library. -/
def httpMethodGet : String := "GET"

/-- Modelled from the spec: the constant `enum.CacheControlNoCache`, declared in
the package `enum` which is not among the sources; the directive "no-cache". -/
def CacheControlNoCache : String := "no-cache"

/-- Modelled from the spec: the constant `enum.CacheControlNoStore`, declared in
the package `enum` which is not among the sources; the directive "no-store". -/
def CacheControlNoStore : String := "no-store"

/-! ## Data model -/

/-- The type `Header` is declared outside the sources at hand. `cache.go` only
calls its accessor `Get`, so a header set is given by that accessor. -/
structure Header where
  Get : String → String

/-- The part of `Request` that `cache.go` reads through the accessors
`Method()`, `Url()`, `Path()` and `Header()`. -/
structure Request where
  Method : String
  Url : String
  Path : String
  Header : Gopen.Header

/-- The part of `Response` that `cache.go` reads through the accessors
`StatusCode()` and `Header()`. -/
structure Response where
  StatusCode : Int
  Header : Gopen.Header

/-- The struct `Cache`: the global cache configuration. -/
structure Cache where
  duration : Int
  strategyHeaders : Option (List String)
  onlyIfStatusCodes : Option (List Int)
  onlyIfMethods : Option (List String)
  allowCacheControl : Option Bool
  deriving DecidableEq, Repr

/-- The struct `EndpointCache`: the cache configuration of one endpoint. -/
structure EndpointCache where
  enabled : Bool
  ignoreQuery : Bool
  duration : Int
  strategyHeaders : Option (List String)
  onlyIfStatusCodes : Option (List Int)
  onlyIfMethods : Option (List String)
  allowCacheControl : Option Bool
  deriving DecidableEq, Repr

/-! ## Accessors of `Cache` -/

/-- `Cache.Duration`: the field when it is positive, one minute otherwise. -/
def Cache.Duration (c : Cache) : Int :=
  if helper.IsGreaterThan c.duration 0 then c.duration else 1 * timeMinute

/-- `Cache.StrategyHeaders`. -/
def Cache.StrategyHeaders (c : Cache) : Option (List String) :=
  c.strategyHeaders

/-- `Cache.OnlyIfStatusCodes`. -/
def Cache.OnlyIfStatusCodes (c : Cache) : Option (List Int) :=
  c.onlyIfStatusCodes

/-- `Cache.OnlyIfMethods`. -/
def Cache.OnlyIfMethods (c : Cache) : Option (List String) :=
  c.onlyIfMethods

/-- `Cache.AllowCacheControl`. -/
def Cache.AllowCacheControl (c : Cache) : Option Bool :=
  c.allowCacheControl

/-! ## Accessors of `EndpointCache` -/

/-- `EndpointCache.HasDuration`: the duration is greater than zero. -/
def EndpointCache.HasDuration (e : EndpointCache) : Bool :=
  helper.IsGreaterThan e.duration 0

/-- `EndpointCache.Enabled`: the flag is set and there is a duration. -/
def EndpointCache.Enabled (e : EndpointCache) : Bool :=
  e.enabled && e.HasDuration

/-- `EndpointCache.Disabled`: the opposite of `Enabled`. -/
def EndpointCache.Disabled (e : EndpointCache) : Bool :=
  !e.Enabled

/-- `EndpointCache.IgnoreQuery`. -/
def EndpointCache.IgnoreQuery (e : EndpointCache) : Bool :=
  e.ignoreQuery

/-- `EndpointCache.Duration`. -/
def EndpointCache.Duration (e : EndpointCache) : Int :=
  e.duration

/-- `EndpointCache.HasStrategyHeaders`: the slice is not nil. -/
def EndpointCache.HasStrategyHeaders (e : EndpointCache) : Bool :=
  helper.IsNotNil e.strategyHeaders

/-- `EndpointCache.StrategyHeaders`. -/
def EndpointCache.StrategyHeaders (e : EndpointCache) : Option (List String) :=
  e.strategyHeaders

/-- `EndpointCache.HasAllowCacheControl`: the pointer is not nil. -/
def EndpointCache.HasAllowCacheControl (e : EndpointCache) : Bool :=
  helper.IsNotNil e.allowCacheControl

/-- `EndpointCache.AllowCacheControl`. -/
def EndpointCache.AllowCacheControl (e : EndpointCache) : Option Bool :=
  e.allowCacheControl

/-- `EndpointCache.HasOnlyIfStatusCodes`: the slice is not nil. -/
def EndpointCache.HasOnlyIfStatusCodes (e : EndpointCache) : Bool :=
  helper.IsNotNil e.onlyIfStatusCodes

/-- `EndpointCache.OnlyIfStatusCodes`. -/
def EndpointCache.OnlyIfStatusCodes (e : EndpointCache) : Option (List Int) :=
  e.onlyIfStatusCodes

/-- `EndpointCache.OnlyIfMethods`. -/
def EndpointCache.OnlyIfMethods (e : EndpointCache) : Option (List String) :=
  e.onlyIfMethods

/-! ## The merge -/

/-- The local variables of `newEndpointCache` right after their declaration:
every one holds the zero value of its type. -/
def zeroEndpointCache : EndpointCache :=
  { enabled := false, ignoreQuery := false, duration := 0, strategyHeaders := none,
    onlyIfStatusCodes := none, onlyIfMethods := none, allowCacheControl := none }

/-- The first block of `newEndpointCache`: the values read from the root
configuration, when there is one. -/
def fromRoot (cacheVO : Option Cache) (v : EndpointCache) : EndpointCache :=
  match cacheVO with
  | none => v
  | some c =>
    { v with
      duration := c.Duration
      strategyHeaders := c.StrategyHeaders
      onlyIfStatusCodes := c.OnlyIfStatusCodes
      onlyIfMethods := c.OnlyIfMethods
      allowCacheControl := c.AllowCacheControl }

/-- The second block of `newEndpointCache`: the values of the endpoint,
which take priority where the endpoint has them. -/
def fromEndpoint (endpointCacheVO : Option EndpointCache) (v : EndpointCache) : EndpointCache :=
  match endpointCacheVO with
  | none => v
  | some e =>
    let v1 := { v with enabled := e.enabled }
    let v2 := { v1 with ignoreQuery := e.IgnoreQuery }
    let v3 := if e.HasDuration then { v2 with duration := e.Duration } else v2
    let v4 := if e.HasStrategyHeaders then { v3 with strategyHeaders := e.StrategyHeaders } else v3
    let v5 := if e.HasAllowCacheControl then
      { v4 with allowCacheControl := e.AllowCacheControl } else v4
    if e.HasOnlyIfStatusCodes then { v5 with onlyIfStatusCodes := e.OnlyIfStatusCodes } else v5

/-- The function `newEndpointCache`: nil when both arguments are nil, otherwise
the root values overridden by the endpoint values. -/
def newEndpointCache (cacheVO : Option Cache) (endpointCacheVO : Option EndpointCache) :
    Option EndpointCache :=
  if helper.IsNil cacheVO && helper.IsNil endpointCacheVO then none
  else some (fromEndpoint endpointCacheVO (fromRoot cacheVO zeroEndpointCache))

/-! ## Admission predicates -/

/-- `EndpointCache.CacheControlEnum`: the `Cache-Control` value of the header
when the endpoint honours it, the empty directive otherwise. -/
def EndpointCache.CacheControlEnum (e : EndpointCache) (header : Header) : String :=
  if helper.IsNotNil e.allowCacheControl && e.allowCacheControl.getD false then
    header.Get "Cache-Control"
  else ""

/-- `EndpointCache.AllowMethod`. -/
def EndpointCache.AllowMethod (e : EndpointCache) (method : String) : Bool :=
  helper.IsNil e.onlyIfMethods ||
    (helper.IsEmpty e.onlyIfMethods && helper.Equals method httpMethodGet) ||
    helper.Contains e.onlyIfMethods method

/-- `EndpointCache.AllowStatusCode`. -/
def EndpointCache.AllowStatusCode (e : EndpointCache) (statusCode : Int) : Bool :=
  helper.IsNil e.onlyIfStatusCodes ||
    (helper.IsEmpty e.onlyIfStatusCodes && helper.IsGreaterThanOrEqual statusCode 200 &&
      helper.IsLessThanOrEqual statusCode 299) ||
    helper.Contains e.onlyIfStatusCodes statusCode

/-- `EndpointCache.CanRead`. -/
def EndpointCache.CanRead (e : EndpointCache) (requestVO : Request) : Bool :=
  if e.Disabled then false
  else
    let cacheControl := e.CacheControlEnum requestVO.Header
    helper.IsNotEqualTo CacheControlNoCache cacheControl && e.AllowMethod requestVO.Method

/-- `EndpointCache.CanWrite`. -/
def EndpointCache.CanWrite (e : EndpointCache) (requestVO : Request) (responseVO : Response) :
    Bool :=
  if e.Disabled then false
  else
    let cacheControl := e.CacheControlEnum responseVO.Header
    helper.IsNotEqualTo CacheControlNoStore cacheControl && e.AllowMethod requestVO.Method &&
      e.AllowStatusCode responseVO.StatusCode

/-! ## Sample values -/

/-- A header set without any value. -/
def emptyHeader : Header :=
  ⟨fun _ => ""⟩

/-- A header set whose only value is the given `Cache-Control` directive. -/
def cacheControlHeader (directive : String) : Header :=
  ⟨fun k => if k = "Cache-Control" then directive else ""⟩

/-- A request with the given method for the URL `/a?x=1`, without headers. -/
def plainRequest (method : String) : Request :=
  { Method := method, Url := "/a?x=1", Path := "/a", Header := emptyHeader }

/-- A response with the given status code, without headers. -/
def plainResponse (statusCode : Int) : Response :=
  { StatusCode := statusCode, Header := emptyHeader }

/-- A root configuration that sets nothing but the method allow-list `["GET"]`. -/
def rootGetOnly : Cache :=
  { duration := 0, strategyHeaders := none, onlyIfStatusCodes := none,
    onlyIfMethods := some ["GET"], allowCacheControl := none }

/-- A root configuration that sets every attribute. -/
def rootFull : Cache :=
  { duration := 5000000000, strategyHeaders := some ["X-Tenant"],
    onlyIfStatusCodes := some [200, 404], onlyIfMethods := some ["GET", "HEAD"],
    allowCacheControl := some true }

/-- An endpoint configuration that is switched on and sets nothing else. -/
def endpointBare : EndpointCache :=
  { enabled := true, ignoreQuery := true, duration := 0, strategyHeaders := none,
    onlyIfStatusCodes := none, onlyIfMethods := none, allowCacheControl := none }

/-- An endpoint configuration that is switched on and whose method allow-list
is `["POST"]`. -/
def endpointPostOnly : EndpointCache :=
  { enabled := true, ignoreQuery := false, duration := 0, strategyHeaders := none,
    onlyIfStatusCodes := none, onlyIfMethods := some ["POST"], allowCacheControl := none }

/-- An endpoint configuration that is switched on for one second and whose
status-code allow-list is the empty list. -/
def endpointEmptyCodes : EndpointCache :=
  { enabled := true, ignoreQuery := false, duration := 1000000000, strategyHeaders := none,
    onlyIfStatusCodes := some [], onlyIfMethods := none, allowCacheControl := some true }

/-- An endpoint configuration that is switched on for one second and whose
method allow-list is the empty list. -/
def endpointEmptyMethods : EndpointCache :=
  { enabled := true, ignoreQuery := false, duration := 1000000000, strategyHeaders := none,
    onlyIfStatusCodes := none, onlyIfMethods := some [], allowCacheControl := none }

/-- An endpoint configuration that sets every attribute it can override. -/
def endpointFull : EndpointCache :=
  { enabled := true, ignoreQuery := true, duration := 2000000000, strategyHeaders := some [],
    onlyIfStatusCodes := some [200, 404], onlyIfMethods := none,
    allowCacheControl := some false }

/-- A GET request that carries the given `Cache-Control` directive. -/
def directiveRequest (directive : String) : Request :=
  { Method := "GET", Url := "/a?x=1", Path := "/a", Header := cacheControlHeader directive }

/-- A response with status 200 that carries the given `Cache-Control` directive. -/
def directiveResponse (directive : String) : Response :=
  { StatusCode := 200, Header := cacheControlHeader directive }

/-! ## The cache key -/

/-- `helper.IsNotEmpty` on a string: its length is not zero. -/
def helper.IsNotEmpty (a : String) : Bool :=
  decide (a ≠ "")

/-- `strings.Join` of the Go standard library: the elements in order, with
the separator between every two neighbours. -/
def stringsJoin : List String → String → String
  | [], _ => ""
  | [a], _ => a
  | a :: b :: t, sep => a ++ sep ++ stringsJoin (b :: t) sep

/-- The call `fmt.Sprintf("%s:%s", a, b)`. -/
def sprintfPair (a b : String) : String :=
  a ++ ":" ++ b

/-- The loop of `StrategyKey` over the strategy header names: the value of each
name is appended to the values gathered so far when it is not empty. -/
def strategyValuesLoop (header : Header) : List String → List String → List String
  | [], strategyValues => strategyValues
  | strategyKey :: rest, strategyValues =>
    let valueByStrategyKey := header.Get strategyKey
    if helper.IsNotEmpty valueByStrategyKey then
      strategyValuesLoop header rest (strategyValues ++ [valueByStrategyKey])
    else
      strategyValuesLoop header rest strategyValues

/-- `EndpointCache.StrategyKey`. A `range` over a nil slice runs no iteration,
like one over an empty slice. -/
def EndpointCache.StrategyKey (e : EndpointCache) (requestVO : Request) : String :=
  let url := if e.IgnoreQuery then requestVO.Path else requestVO.Url
  let key := sprintfPair requestVO.Method url
  let strategyValues := strategyValuesLoop requestVO.Header (e.strategyHeaders.getD []) []
  let strategyKey := stringsJoin strategyValues ":"
  if helper.IsNotEmpty strategyKey then sprintfPair key strategyKey else key

/-- The values the strategy headers of the endpoint have in the request, in
the declared order, without the empty ones. -/
def strategyValuesOf (e : EndpointCache) (r : Request) : List String :=
  ((e.strategyHeaders.getD []).map r.Header.Get).filter (fun v => v ≠ "")

/-- A header set with the two values given for `X-A` and `X-B`. -/
def twoHeader (a b : String) : Header :=
  ⟨fun k => if k = "X-A" then a else if k = "X-B" then b else ""⟩

/-- A GET request for `/a?x=1` with the two values given for `X-A` and `X-B`. -/
def twoRequest (a b : String) : Request :=
  { Method := "GET", Url := "/a?x=1", Path := "/a", Header := twoHeader a b }

/-- An endpoint configuration whose strategy headers are `X-A` and `X-B`. -/
def endpointTwoHeaders : EndpointCache :=
  { enabled := true, ignoreQuery := false, duration := 1000000000,
    strategyHeaders := some ["X-A", "X-B"], onlyIfStatusCodes := none, onlyIfMethods := none,
    allowCacheControl := none }

/-- The endpoint configuration `endpointTwoHeaders` with the query ignored. -/
def endpointTwoHeadersNoQuery : EndpointCache :=
  { endpointTwoHeaders with ignoreQuery := true }

/-- A GET request for `/a?x=2`, path `/a`, whose headers `X-A` and `X-B` have
the given values and whose every other header has the value `other`. -/
def noisyRequest (a b : String) : Request :=
  { Method := "GET", Url := "/a?x=2", Path := "/a",
    Header := ⟨fun k => if k = "X-A" then a else if k = "X-B" then b else "other"⟩ }

/-! ## `fillEnvValues` (`cmd/main.go`)

The text is handled as its list of characters. The pattern `\$\w+` only
involves ASCII characters, so matching on characters and matching on the bytes
of the UTF-8 encoding find the same words. The calls of `printInfoLog` and the
counter they print do not take part in the result and are left out. -/

/-- The class `\w` of the Go package `regexp`: ASCII letters, digits and `_`. -/
def isWordChar (c : Char) : Bool :=
  c.isAlphanum || c == '_'

/-- A match in progress is reported when a word character follows the `$`. -/
def closeWord : Option (List Char) → List (List Char)
  | none => []
  | some w => if 2 ≤ w.length then [w] else []

/-- `regexp.FindAllString(text, -1)` for the pattern `\$\w+`, as a scan from left
to right: the second argument is the match in progress, which starts at a `$`,
takes every word character that follows and ends before the first other
character; matches do not overlap. -/
def findAllWords : List Char → Option (List Char) → List (List Char)
  | [], cur => closeWord cur
  | c :: t, none =>
    if c = '$' then findAllWords t (some [c]) else findAllWords t none
  | c :: t, some w =>
    if isWordChar c then findAllWords t (some (w ++ [c]))
    else closeWord (some w) ++
      (if c = '$' then findAllWords t (some [c]) else findAllWords t none)

/-- The scan of `strings.ReplaceAll` for a non-empty `old`: the first argument
counts the characters still to skip after a replaced occurrence, so that
occurrences are found from left to right without overlap. -/
def replaceAllFrom (old new : List Char) : Nat → List Char → List Char
  | _, [] => []
  | skip + 1, _ :: t => replaceAllFrom old new skip t
  | 0, c :: t =>
    if old.isPrefixOf (c :: t) then new ++ replaceAllFrom old new (old.length - 1) t
    else c :: replaceAllFrom old new 0 t

/-- `strings.ReplaceAll(s, old, new)` of the Go standard library. With an empty
`old` the replacement goes before every character and at the end. -/
def stringsReplaceAll (s old new : List Char) : List Char :=
  if old = [] then s.foldr (fun c acc => new ++ c :: acc) new
  else replaceAllFrom old new 0 s

/-- The loop of `fillEnvValues` over the words found: a word whose variable has
a non-empty value is replaced by that value everywhere in the text. The
environment is the function `os.Getenv`. -/
def fillEnvLoop (getenv : String → String) : List (List Char) → List Char → List Char
  | [], gopenStrJson => gopenStrJson
  | word :: rest, gopenStrJson =>
    let envKey := stringsReplaceAll word ['$'] []
    let envValue := getenv (String.mk envKey)
    if helper.IsNotEmpty envValue then
      fillEnvLoop getenv rest (stringsReplaceAll gopenStrJson word envValue.data)
    else
      fillEnvLoop getenv rest gopenStrJson

/-- The function `fillEnvValues`, with the environment as a parameter. -/
def fillEnvValues (getenv : String → String) (gopenBytesJson : String) : String :=
  let gopenStrJson := gopenBytesJson.data
  let words := findAllWords gopenStrJson none
  String.mk (fillEnvLoop getenv words gopenStrJson)

/-- What a finished word stands for when every word is replaced on its own: the
value of its variable when that is not empty, the word itself otherwise. -/
def expandWord (getenv : String → String) (w : List Char) : List Char :=
  if 2 ≤ w.length ∧ getenv (String.mk (w.drop 1)) ≠ "" then
    (getenv (String.mk (w.drop 1))).data
  else w

/-- The scan that replaces every word on its own and copies every other
character, with the match in progress as second argument. -/
def substituteWordsFrom (getenv : String → String) : List Char → Option (List Char) → List Char
  | [], none => []
  | [], some w => expandWord getenv w
  | c :: t, none =>
    if c = '$' then substituteWordsFrom getenv t (some [c])
    else c :: substituteWordsFrom getenv t none
  | c :: t, some w =>
    if isWordChar c then substituteWordsFrom getenv t (some (w ++ [c]))
    else expandWord getenv w ++
      (if c = '$' then substituteWordsFrom getenv t (some [c])
       else c :: substituteWordsFrom getenv t none)

/-- The reading of `fillEnvValues` by occurrence: each occurrence of a word
matched by `\$\w+` whose variable has a non-empty value is replaced by that
value, and every other character of the text is kept. -/
def fillEnvValuesByOccurrence (getenv : String → String) (text : String) : String :=
  String.mk (substituteWordsFrom getenv text.data none)

/-- An environment with the two variables `HOST` and `HOST_PORT`. -/
def sampleGetenv : String → String :=
  fun k => if k = "HOST" then "h" else if k = "HOST_PORT" then "80" else ""

/-! ## Configuration file locations (`cmd/main.go`) -/

/-- `fmt.Sprintf` for a format whose verbs are `%s` and `%%`, on the characters
of the format. The flag says that the character before was a `%` that opens a
verb. Every `%s` takes the next argument, and stands as `%!s(MISSING)` when the
arguments have run out; `%%` stands for `%`; a `%` at the very end stands as
`%!(NOVERB)`; every other character is copied. Other verbs, and arguments left
over at the end, do not occur in the calls of this file; such a verb is kept as
it is written. -/
def sprintfFrom : List (List Char) → Bool → List Char → List Char
  | _, false, [] => []
  | _, true, [] => "%!(NOVERB)".data
  | args, false, c :: t =>
    if c = '%' then sprintfFrom args true t else c :: sprintfFrom args false t
  | args, true, c :: t =>
    if c = 's' then
      match args with
      | a :: rest => a ++ sprintfFrom rest false t
      | [] => "%!s(MISSING)".data ++ sprintfFrom [] false t
    else if c = '%' then '%' :: sprintfFrom args false t
    else '%' :: c :: sprintfFrom args false t

/-- The call `fmt.Sprintf(format, arg)` with one string argument. -/
def sprintfOne (format arg : String) : String :=
  String.mk (sprintfFrom [arg.data] false format.data)

/-- The function `getFileEnvUri`. -/
def getFileEnvUri (env : String) : String :=
  sprintfOne "./gopen/%s/.env" env

/-- The function `getFileJsonUri`. -/
def getFileJsonUri (env : String) : String :=
  sprintfOne "./gopen/%s/.json" env

/-! ## Shared lemmas -/

/-- The directive `CacheControlEnum` computes, by cases on the tri-state flag. -/
theorem CacheControlEnum_eq (e : EndpointCache) (h : Header) :
    e.CacheControlEnum h =
      if e.allowCacheControl = some true then h.Get "Cache-Control" else "" := by
  unfold EndpointCache.CacheControlEnum helper.IsNotNil helper.IsNil
  rcases hc : e.allowCacheControl with _ | b
  · simp
  · cases b <;> simp

/-- `helper.IsNotEqualTo` holds when its second argument differs from the first. -/
theorem IsNotEqualTo_iff {α : Type} [DecidableEq α] (a b : α) :
    helper.IsNotEqualTo a b = true ↔ b ≠ a := by
  unfold helper.IsNotEqualTo helper.Equals
  simp only [Bool.not_eq_true', decide_eq_false_iff_not]
  exact ⟨fun h c => h c.symm, fun h c => h c.symm⟩

/-- `helper.IsNotNil` holds for the values other than nil. -/
theorem IsNotNil_iff {α : Type} (a : Option α) : helper.IsNotNil a = true ↔ a ≠ none := by
  cases a <;> simp [helper.IsNotNil, helper.IsNil]

/-- `Disabled` says that the flag is off or that the duration is not positive. -/
theorem Disabled_iff (e : EndpointCache) :
    e.Disabled = true ↔ (e.enabled = false ∨ e.duration ≤ 0) := by
  unfold EndpointCache.Disabled EndpointCache.Enabled EndpointCache.HasDuration
    helper.IsGreaterThan
  cases e.enabled <;> simp

/-- `Enabled` says that the flag is on and that the duration is positive. -/
theorem Enabled_iff (e : EndpointCache) :
    e.Enabled = true ↔ (e.enabled = true ∧ 0 < e.duration) := by
  unfold EndpointCache.Enabled EndpointCache.HasDuration helper.IsGreaterThan
  simp

/-! ## `CanRead` and `CanWrite` -/

/-- When the endpoint is not disabled, its flag is set and its duration positive. -/
theorem enabled_of_not_Disabled (e : EndpointCache) (hd : ¬ e.Disabled = true) :
    e.enabled = true ∧ 0 < e.duration := by
  apply (Enabled_iff e).mp
  unfold EndpointCache.Disabled at hd
  simpa using hd

/-- The conditions under which `CanRead` admits a request. -/
theorem CanRead_eq_true_iff (e : EndpointCache) (r : Request) :
    e.CanRead r = true ↔
      (e.enabled = true ∧ 0 < e.duration ∧
        ¬ (e.allowCacheControl = some true ∧ r.Header.Get "Cache-Control" = "no-cache") ∧
        e.AllowMethod r.Method = true) := by
  unfold EndpointCache.CanRead
  by_cases hd : e.Disabled = true
  · have h := (Disabled_iff e).mp hd
    simp only [hd, if_true]
    constructor
    · intro hf
      exact absurd hf (by simp)
    · rintro ⟨h1, h2, _⟩
      rcases h with h | h
      · simp [h1] at h
      · omega
  · obtain ⟨h1, h2⟩ := enabled_of_not_Disabled e hd
    simp only [hd, Bool.false_eq_true, if_false]
    rw [CacheControlEnum_eq, Bool.and_eq_true, IsNotEqualTo_iff]
    unfold CacheControlNoCache
    by_cases hc : e.allowCacheControl = some true
    · simp only [hc, if_true, true_and, h1, h2]
    · simp [hc, h1, h2]

/-- The conditions under which `CanWrite` admits a request and its response. -/
theorem CanWrite_eq_true_iff (e : EndpointCache) (r : Request) (p : Response) :
    e.CanWrite r p = true ↔
      (e.enabled = true ∧ 0 < e.duration ∧
        ¬ (e.allowCacheControl = some true ∧ p.Header.Get "Cache-Control" = "no-store") ∧
        e.AllowMethod r.Method = true ∧ e.AllowStatusCode p.StatusCode = true) := by
  unfold EndpointCache.CanWrite
  by_cases hd : e.Disabled = true
  · have h := (Disabled_iff e).mp hd
    simp only [hd, if_true]
    constructor
    · intro hf
      exact absurd hf (by simp)
    · rintro ⟨h1, h2, _⟩
      rcases h with h | h
      · simp [h1] at h
      · omega
  · obtain ⟨h1, h2⟩ := enabled_of_not_Disabled e hd
    simp only [hd, Bool.false_eq_true, if_false]
    rw [CacheControlEnum_eq, Bool.and_eq_true, Bool.and_eq_true, IsNotEqualTo_iff]
    unfold CacheControlNoStore
    by_cases hc : e.allowCacheControl = some true
    · simp only [hc, if_true, true_and, h1, h2, and_assoc]
    · simp [hc, h1, h2]

/-- C1: `CanRead` is true exactly when the enabled flag is set, the duration is
positive, it is not the case that `allowCacheControl` points to true and the
request's `Cache-Control` header equals "no-cache", and the request method is
allowed; when the endpoint is disabled it is false for every request. -/
theorem CanRead_characterised (e : EndpointCache) (r : Request) :
    (e.CanRead r = true ↔
      (e.enabled = true ∧ 0 < e.duration ∧
        ¬ (e.allowCacheControl = some true ∧ r.Header.Get "Cache-Control" = "no-cache") ∧
        e.AllowMethod r.Method = true)) ∧
    ((e.enabled = false ∨ e.duration ≤ 0) → ∀ r' : Request, e.CanRead r' = false) := by
  refine ⟨CanRead_eq_true_iff e r, ?_⟩
  intro h r'
  unfold EndpointCache.CanRead
  simp [(Disabled_iff e).mpr h]

/-- The statement of C1 at three inputs: a plain GET request is admitted by the
endpoint `endpointEmptyCodes`, a GET request with the directive "no-cache" is
not, and the endpoint `endpointBare`, which has no duration, admits neither. -/
theorem CanRead_characterised_witness :
    endpointEmptyCodes.CanRead (plainRequest "GET") = true ∧
    endpointEmptyCodes.CanRead (directiveRequest "no-cache") = false ∧
    endpointBare.CanRead (plainRequest "GET") = false ∧
    endpointBare.CanRead (directiveRequest "no-cache") = false :=
  ⟨(CanRead_characterised endpointEmptyCodes (plainRequest "GET")).1.mpr
      ⟨rfl, by decide, by decide, by decide⟩,
    Bool.eq_false_iff.mpr (fun h =>
      ((CanRead_characterised endpointEmptyCodes (directiveRequest "no-cache")).1.mp h).2.2.1
        ⟨rfl, by decide⟩),
    (CanRead_characterised endpointBare (plainRequest "GET")).2 (Or.inr (by decide)) _,
    (CanRead_characterised endpointBare (plainRequest "GET")).2 (Or.inr (by decide)) _⟩

/-- C2: `CanWrite` is true exactly when the enabled flag is set, the duration is
positive, it is not the case that `allowCacheControl` points to true and the
response's `Cache-Control` header equals "no-store", the request method is
allowed and the response status code is allowed; when the endpoint is disabled
it is false for every request and response; and the headers of the request
never influence the result. -/
theorem CanWrite_characterised (e : EndpointCache) (r : Request) (p : Response) :
    (e.CanWrite r p = true ↔
      (e.enabled = true ∧ 0 < e.duration ∧
        ¬ (e.allowCacheControl = some true ∧ p.Header.Get "Cache-Control" = "no-store") ∧
        e.AllowMethod r.Method = true ∧ e.AllowStatusCode p.StatusCode = true)) ∧
    ((e.enabled = false ∨ e.duration ≤ 0) →
      ∀ (r' : Request) (p' : Response), e.CanWrite r' p' = false) ∧
    (∀ h : Header, e.CanWrite { r with Header := h } p = e.CanWrite r p) := by
  refine ⟨CanWrite_eq_true_iff e r p, ?_, ?_⟩
  · intro h r' p'
    unfold EndpointCache.CanWrite
    simp [(Disabled_iff e).mpr h]
  · intro h
    rfl

/-- The statement of C2 at three inputs: the endpoint `endpointEmptyCodes` admits
a 200 response to a GET request even when the request says "no-store", does not
admit a response that says "no-store", and the endpoint `endpointBare`, which
has no duration, admits nothing. -/
theorem CanWrite_characterised_witness :
    endpointEmptyCodes.CanWrite (directiveRequest "no-store") (plainResponse 200) = true ∧
    endpointEmptyCodes.CanWrite (plainRequest "GET") (directiveResponse "no-store") = false ∧
    endpointBare.CanWrite (plainRequest "GET") (plainResponse 200) = false :=
  ⟨(CanWrite_characterised endpointEmptyCodes (directiveRequest "no-store")
      (plainResponse 200)).1.mpr ⟨rfl, by decide, by decide, by decide, by decide⟩,
    Bool.eq_false_iff.mpr (fun h =>
      ((CanWrite_characterised endpointEmptyCodes (plainRequest "GET")
        (directiveResponse "no-store")).1.mp h).2.2.1 ⟨rfl, by decide⟩),
    (CanWrite_characterised endpointBare (plainRequest "GET") (plainResponse 200)).2.1
      (Or.inr (by decide)) _ _⟩

/-! ## The merge `newEndpointCache` -/

/-- With an endpoint given, `newEndpointCache` returns the merged record. -/
theorem newEndpointCache_some (parent : Option Cache) (child : EndpointCache) :
    newEndpointCache parent (some child) =
      some (fromEndpoint (some child) (fromRoot parent zeroEndpointCache)) := by
  unfold newEndpointCache helper.IsNil
  simp

/-- C3: when the endpoint sets nothing (duration not greater than zero, nil
strategyHeaders, nil onlyIfStatusCodes, nil allowCacheControl), the merge with a
non-nil parent takes duration, strategyHeaders, onlyIfStatusCodes, onlyIfMethods
and allowCacheControl from the accessors of the parent. -/
theorem newEndpointCache_inherits (c : Cache) (child : EndpointCache)
    (hd : child.duration ≤ 0) (hs : child.strategyHeaders = none)
    (hc : child.onlyIfStatusCodes = none) (ha : child.allowCacheControl = none) :
    ∃ m : EndpointCache, newEndpointCache (some c) (some child) = some m ∧
      m.duration = c.Duration ∧ m.strategyHeaders = c.StrategyHeaders ∧
      m.onlyIfStatusCodes = c.OnlyIfStatusCodes ∧ m.onlyIfMethods = c.OnlyIfMethods ∧
      m.allowCacheControl = c.AllowCacheControl := by
  refine ⟨_, newEndpointCache_some (some c) child, ?_⟩
  have hd' : ¬ (0 < child.duration) := by omega
  simp [fromEndpoint, fromRoot, EndpointCache.HasDuration, EndpointCache.HasStrategyHeaders,
    EndpointCache.HasAllowCacheControl, EndpointCache.HasOnlyIfStatusCodes,
    helper.IsGreaterThan, helper.IsNotNil, helper.IsNil, hd', hs, hc, ha]

/-- The statement of C3 at the root `rootFull` and the endpoint `endpointBare`. -/
theorem newEndpointCache_inherits_witness :
    ∃ m : EndpointCache, newEndpointCache (some rootFull) (some endpointBare) = some m ∧
      m.duration = rootFull.Duration ∧ m.strategyHeaders = rootFull.StrategyHeaders ∧
      m.onlyIfStatusCodes = rootFull.OnlyIfStatusCodes ∧
      m.onlyIfMethods = rootFull.OnlyIfMethods ∧
      m.allowCacheControl = rootFull.AllowCacheControl :=
  newEndpointCache_inherits rootFull endpointBare (by decide) rfl rfl rfl

/-- C4: for every parent (nil or not) and every non-nil endpoint, the merge
takes the endpoint's duration when the endpoint has one (duration > 0), the
endpoint's strategyHeaders when they are non-nil, the endpoint's
onlyIfStatusCodes when they are non-nil and the endpoint's allowCacheControl
when it is non-nil, whatever the parent holds. -/
theorem newEndpointCache_endpoint_priority (parent : Option Cache) (child : EndpointCache) :
    ∃ m : EndpointCache, newEndpointCache parent (some child) = some m ∧
      (child.HasDuration = true → m.duration = child.duration) ∧
      (child.HasStrategyHeaders = true → m.strategyHeaders = child.strategyHeaders) ∧
      (child.HasOnlyIfStatusCodes = true → m.onlyIfStatusCodes = child.onlyIfStatusCodes) ∧
      (child.HasAllowCacheControl = true → m.allowCacheControl = child.allowCacheControl) ∧
      (child.HasDuration = true ↔ 0 < child.duration) ∧
      (child.HasStrategyHeaders = true ↔ child.strategyHeaders ≠ none) ∧
      (child.HasOnlyIfStatusCodes = true ↔ child.onlyIfStatusCodes ≠ none) ∧
      (child.HasAllowCacheControl = true ↔ child.allowCacheControl ≠ none) := by
  refine ⟨_, newEndpointCache_some parent child, ?_, ?_, ?_, ?_, ?_, ?_, ?_, ?_⟩
  · intro h
    by_cases h1 : child.HasStrategyHeaders = true <;>
    by_cases h2 : child.HasAllowCacheControl = true <;>
    by_cases h3 : child.HasOnlyIfStatusCodes = true <;>
    simp [fromEndpoint, h, h1, h2, h3, EndpointCache.Duration]
  · intro h
    by_cases h1 : child.HasDuration = true <;>
    by_cases h2 : child.HasAllowCacheControl = true <;>
    by_cases h3 : child.HasOnlyIfStatusCodes = true <;>
    simp [fromEndpoint, h, h1, h2, h3, EndpointCache.StrategyHeaders]
  · intro h
    simp [fromEndpoint, h, EndpointCache.OnlyIfStatusCodes]
  · intro h
    by_cases h1 : child.HasDuration = true <;>
    by_cases h2 : child.HasStrategyHeaders = true <;>
    by_cases h3 : child.HasOnlyIfStatusCodes = true <;>
    simp [fromEndpoint, h, h1, h2, h3, EndpointCache.AllowCacheControl]
  · simp [EndpointCache.HasDuration, helper.IsGreaterThan]
  · exact IsNotNil_iff child.strategyHeaders
  · exact IsNotNil_iff child.onlyIfStatusCodes
  · exact IsNotNil_iff child.allowCacheControl

/-- The statement of C4 at the root `rootFull` and the endpoint `endpointFull`,
which sets an empty strategyHeaders list and a pointer to false. -/
theorem newEndpointCache_endpoint_priority_witness :
    ∃ m : EndpointCache, newEndpointCache (some rootFull) (some endpointFull) = some m ∧
      m.duration = 2000000000 ∧ m.strategyHeaders = some [] ∧
      m.onlyIfStatusCodes = some [200, 404] ∧ m.allowCacheControl = some false := by
  obtain ⟨m, hm, h1, h2, h3, h4, _⟩ :=
    newEndpointCache_endpoint_priority (some rootFull) endpointFull
  exact ⟨m, hm, h1 (by decide), h2 (by decide), h3 (by decide), h4 (by decide)⟩

/-- C5, refuted as stated: the endpoint `endpointPostOnly` sets the method
allow-list `["POST"]`, yet merged with the root `rootGetOnly` the result holds
the root's list `["GET"]`, and merged with no root at all it holds nil. -/
theorem newEndpointCache_onlyIfMethods_not_overridden :
    endpointPostOnly.onlyIfMethods = some ["POST"] ∧
    (newEndpointCache (some rootGetOnly) (some endpointPostOnly)).map
        EndpointCache.OnlyIfMethods = some (some ["GET"]) ∧
    (newEndpointCache none (some endpointPostOnly)).map
        EndpointCache.OnlyIfMethods = some none ∧
    ¬ (∀ (parent : Option Cache) (child : EndpointCache), child.onlyIfMethods ≠ none →
        (newEndpointCache parent (some child)).map EndpointCache.OnlyIfMethods =
          some child.onlyIfMethods) := by
  refine ⟨rfl, by decide, by decide, ?_⟩
  intro h
  have h1 := h none endpointPostOnly (by decide)
  revert h1
  decide

/-- C5, amended: the method allow-list of the merge is the one of the parent,
nil when there is no parent, whatever the endpoint's own onlyIfMethods is. -/
theorem newEndpointCache_onlyIfMethods_from_root (parent : Option Cache)
    (child : EndpointCache) :
    ∃ m : EndpointCache, newEndpointCache parent (some child) = some m ∧
      m.OnlyIfMethods = (match parent with
        | some c => c.OnlyIfMethods
        | none => none) := by
  refine ⟨_, newEndpointCache_some parent child, ?_⟩
  by_cases h0 : child.HasDuration = true <;>
  by_cases h1 : child.HasStrategyHeaders = true <;>
  by_cases h2 : child.HasAllowCacheControl = true <;>
  by_cases h3 : child.HasOnlyIfStatusCodes = true <;>
  cases parent <;>
  simp [fromEndpoint, fromRoot, zeroEndpointCache, h0, h1, h2, h3, EndpointCache.OnlyIfMethods]

/-- C6: for every parent and every non-nil endpoint the merge has the enabled
flag and the ignoreQuery flag of the endpoint; with a nil endpoint and a
non-nil parent both flags are false. -/
theorem newEndpointCache_enabled_ignoreQuery (parent : Option Cache) (child : EndpointCache)
    (c : Cache) :
    (∃ m : EndpointCache, newEndpointCache parent (some child) = some m ∧
      m.enabled = child.enabled ∧ m.ignoreQuery = child.ignoreQuery) ∧
    (∃ m : EndpointCache, newEndpointCache (some c) none = some m ∧
      m.enabled = false ∧ m.ignoreQuery = false) := by
  constructor
  · refine ⟨_, newEndpointCache_some parent child, ?_, ?_⟩ <;>
    by_cases h0 : child.HasDuration = true <;>
    by_cases h1 : child.HasStrategyHeaders = true <;>
    by_cases h2 : child.HasAllowCacheControl = true <;>
    by_cases h3 : child.HasOnlyIfStatusCodes = true <;>
    simp [fromEndpoint, h0, h1, h2, h3, EndpointCache.IgnoreQuery]
  · refine ⟨fromEndpoint none (fromRoot (some c) zeroEndpointCache), ?_, ?_, ?_⟩
    · simp [newEndpointCache, helper.IsNil]
    · simp [fromEndpoint, fromRoot, zeroEndpointCache]
    · simp [fromEndpoint, fromRoot, zeroEndpointCache]

/-- C7, refuted as stated: the root `rootGetOnly` has no duration and neither
has the endpoint `endpointBare`, whose enabled flag is set; the merge has the
duration of one minute, is enabled, and admits a GET request for reading and a
200 response for writing. -/
theorem newEndpointCache_unset_duration_enabled :
    rootGetOnly.duration = 0 ∧ endpointBare.duration = 0 ∧
    (newEndpointCache (some rootGetOnly) (some endpointBare)).map
        EndpointCache.Duration = some 60000000000 ∧
    (newEndpointCache (some rootGetOnly) (some endpointBare)).map
        EndpointCache.Enabled = some true ∧
    (newEndpointCache (some rootGetOnly) (some endpointBare)).map
        (fun m => m.CanRead (plainRequest "GET")) = some true ∧
    (newEndpointCache (some rootGetOnly) (some endpointBare)).map
        (fun m => m.CanWrite (plainRequest "GET") (plainResponse 200)) = some true := by
  refine ⟨rfl, rfl, by decide, by decide, by decide, by decide⟩

/-- C7, amended: an endpoint without duration merged with no parent keeps the
zero duration, so it is not enabled and neither `CanRead` nor `CanWrite` admits
anything, even with the enabled flag set; merged with a parent without duration
it gets the parent accessor's default of one minute, so that `Enabled` is the
endpoint's enabled flag. -/
theorem newEndpointCache_unset_duration (child : EndpointCache) (hc : child.duration = 0) :
    (∃ m : EndpointCache, newEndpointCache none (some child) = some m ∧
      m.duration = 0 ∧ m.Enabled = false ∧
      (∀ r : Request, m.CanRead r = false) ∧
      (∀ (r : Request) (p : Response), m.CanWrite r p = false)) ∧
    (∀ c : Cache, c.duration = 0 →
      ∃ m : EndpointCache, newEndpointCache (some c) (some child) = some m ∧
        m.duration = 1 * timeMinute ∧ m.Enabled = child.enabled) := by
  have hnd : child.HasDuration = false := by
    simp [EndpointCache.HasDuration, helper.IsGreaterThan, hc]
  constructor
  · refine ⟨_, newEndpointCache_some none child, ?_⟩
    have hz : (fromEndpoint (some child) (fromRoot none zeroEndpointCache)).duration = 0 := by
      by_cases h1 : child.HasStrategyHeaders = true <;>
      by_cases h2 : child.HasAllowCacheControl = true <;>
      by_cases h3 : child.HasOnlyIfStatusCodes = true <;>
      simp [fromEndpoint, fromRoot, zeroEndpointCache, hnd, h1, h2, h3]
    have hdis : (fromEndpoint (some child) (fromRoot none zeroEndpointCache)).Disabled = true :=
      (Disabled_iff _).mpr (Or.inr (le_of_eq hz))
    refine ⟨hz, ?_, ?_, ?_⟩
    · simpa [EndpointCache.Disabled] using hdis
    · intro r
      simp [EndpointCache.CanRead, hdis]
    · intro r p
      simp [EndpointCache.CanWrite, hdis]
  · intro c hcz
    refine ⟨_, newEndpointCache_some (some c) child, ?_⟩
    have hdur : (fromEndpoint (some child) (fromRoot (some c) zeroEndpointCache)).duration =
        1 * timeMinute := by
      by_cases h1 : child.HasStrategyHeaders = true <;>
      by_cases h2 : child.HasAllowCacheControl = true <;>
      by_cases h3 : child.HasOnlyIfStatusCodes = true <;>
      simp [fromEndpoint, fromRoot, zeroEndpointCache, hnd, h1, h2, h3, Cache.Duration,
        helper.IsGreaterThan, hcz]
    have hen : (fromEndpoint (some child) (fromRoot (some c) zeroEndpointCache)).enabled =
        child.enabled := by
      by_cases h1 : child.HasStrategyHeaders = true <;>
      by_cases h2 : child.HasAllowCacheControl = true <;>
      by_cases h3 : child.HasOnlyIfStatusCodes = true <;>
      simp [fromEndpoint, hnd, h1, h2, h3]
    refine ⟨hdur, ?_⟩
    unfold EndpointCache.Enabled EndpointCache.HasDuration helper.IsGreaterThan
    rw [hdur, hen]
    simp [timeMinute]

/-- The statement amending C7 at the endpoint `endpointBare`, whose enabled flag is set. -/
theorem newEndpointCache_unset_duration_witness :
    endpointBare.enabled = true ∧
    (∃ m : EndpointCache, newEndpointCache none (some endpointBare) = some m ∧
      m.duration = 0 ∧ m.Enabled = false ∧
      (∀ r : Request, m.CanRead r = false) ∧
      (∀ (r : Request) (p : Response), m.CanWrite r p = false)) ∧
    (∀ c : Cache, c.duration = 0 →
      ∃ m : EndpointCache, newEndpointCache (some c) (some endpointBare) = some m ∧
        m.duration = 1 * timeMinute ∧ m.Enabled = endpointBare.enabled) :=
  ⟨rfl, newEndpointCache_unset_duration endpointBare rfl⟩

/-! ## The allow-lists -/

/-- C8: with a nil method allow-list every method is allowed; with an empty
one exactly GET is allowed, so GET is and POST is not; with a non-empty one
exactly the listed methods are allowed. -/
theorem AllowMethod_semantics (e : EndpointCache) (m : String) :
    (e.onlyIfMethods = none → e.AllowMethod m = true) ∧
    (e.onlyIfMethods = some [] →
      (e.AllowMethod m = true ↔ m = "GET") ∧
      e.AllowMethod "GET" = true ∧ e.AllowMethod "POST" = false) ∧
    (∀ l : List String, l ≠ [] → e.onlyIfMethods = some l →
      (e.AllowMethod m = true ↔ m ∈ l)) := by
  refine ⟨?_, ?_, ?_⟩
  · intro h
    simp [EndpointCache.AllowMethod, helper.IsNil, h]
  · intro h
    refine ⟨?_, ?_, ?_⟩
    · simp [EndpointCache.AllowMethod, helper.IsNil, helper.IsEmpty, helper.Equals,
        helper.Contains, httpMethodGet, h]
    · simp [EndpointCache.AllowMethod, helper.IsNil, helper.IsEmpty, helper.Equals,
        helper.Contains, httpMethodGet, h]
    · simp only [EndpointCache.AllowMethod, helper.IsNil, helper.IsEmpty, helper.Equals,
        helper.Contains, httpMethodGet, h]
      decide
  · intro l hl h
    cases l with
    | nil => exact absurd rfl hl
    | cons a t =>
      simp [EndpointCache.AllowMethod, helper.IsNil, helper.IsEmpty, helper.Contains, h]

/-- The statement of C8 at three endpoints: a nil list admits DELETE, an empty
list admits GET and not POST, the list `["POST"]` admits POST and not GET. -/
theorem AllowMethod_semantics_witness :
    endpointBare.AllowMethod "DELETE" = true ∧
    endpointEmptyMethods.AllowMethod "GET" = true ∧
    endpointEmptyMethods.AllowMethod "POST" = false ∧
    endpointPostOnly.AllowMethod "POST" = true ∧
    endpointPostOnly.AllowMethod "GET" = false :=
  ⟨(AllowMethod_semantics endpointBare "DELETE").1 rfl,
    ((AllowMethod_semantics endpointEmptyMethods "GET").2.1 rfl).2.1,
    ((AllowMethod_semantics endpointEmptyMethods "GET").2.1 rfl).2.2,
    ((AllowMethod_semantics endpointPostOnly "POST").2.2 ["POST"] (by decide) rfl).mpr
      (by decide),
    Bool.eq_false_iff.mpr (fun h =>
      absurd (((AllowMethod_semantics endpointPostOnly "GET").2.2 ["POST"] (by decide) rfl).mp h)
        (by decide))⟩

/-- C9: with a nil status-code allow-list every status code is allowed; with
an empty one exactly the codes from 200 to 299 are allowed; with a non-empty
one exactly the listed codes are allowed. -/
theorem AllowStatusCode_semantics (e : EndpointCache) (s : Int) :
    (e.onlyIfStatusCodes = none → e.AllowStatusCode s = true) ∧
    (e.onlyIfStatusCodes = some [] →
      (e.AllowStatusCode s = true ↔ (200 ≤ s ∧ s ≤ 299))) ∧
    (∀ l : List Int, l ≠ [] → e.onlyIfStatusCodes = some l →
      (e.AllowStatusCode s = true ↔ s ∈ l)) := by
  refine ⟨?_, ?_, ?_⟩
  · intro h
    simp [EndpointCache.AllowStatusCode, helper.IsNil, h]
  · intro h
    simp [EndpointCache.AllowStatusCode, helper.IsNil, helper.IsEmpty, helper.Contains,
      helper.IsGreaterThanOrEqual, helper.IsLessThanOrEqual, h]
  · intro l hl h
    cases l with
    | nil => exact absurd rfl hl
    | cons a t =>
      simp [EndpointCache.AllowStatusCode, helper.IsNil, helper.IsEmpty, helper.Contains, h]

/-- The statement of C9 at three endpoints: a nil list admits 500, an empty list
admits 204 and not 404, the list `[200, 404]` admits 404 and not 201. -/
theorem AllowStatusCode_semantics_witness :
    endpointBare.AllowStatusCode 500 = true ∧
    endpointEmptyCodes.AllowStatusCode 204 = true ∧
    endpointEmptyCodes.AllowStatusCode 404 = false ∧
    endpointFull.AllowStatusCode 404 = true ∧
    endpointFull.AllowStatusCode 201 = false :=
  ⟨(AllowStatusCode_semantics endpointBare 500).1 rfl,
    ((AllowStatusCode_semantics endpointEmptyCodes 204).2.1 rfl).mpr (by decide),
    Bool.eq_false_iff.mpr (fun h =>
      absurd (((AllowStatusCode_semantics endpointEmptyCodes 404).2.1 rfl).mp h) (by decide)),
    ((AllowStatusCode_semantics endpointFull 404).2.2 [200, 404] (by decide) rfl).mpr
      (by decide),
    Bool.eq_false_iff.mpr (fun h =>
      absurd (((AllowStatusCode_semantics endpointFull 201).2.2 [200, 404] (by decide) rfl).mp h)
        (by decide))⟩

/-- With an empty status-code allow-list exactly the codes from 200 to 299 pass. -/
theorem AllowStatusCode_of_empty (e : EndpointCache) (s : Int)
    (h : e.onlyIfStatusCodes = some []) :
    e.AllowStatusCode s = true ↔ (200 ≤ s ∧ s ≤ 299) := by
  simp [EndpointCache.AllowStatusCode, helper.IsNil, helper.IsEmpty, helper.Contains,
    helper.IsGreaterThanOrEqual, helper.IsLessThanOrEqual, h]

/-- C10, refuted as stated: the endpoint `endpointEmptyCodes` is enabled with an
empty status-code allow-list, the method GET is allowed and the response has no
`Cache-Control` header, yet `CanWrite` admits the response with status 201. -/
theorem CanWrite_empty_codes_admits_201 :
    endpointEmptyCodes.enabled = true ∧ 0 < endpointEmptyCodes.duration ∧
    endpointEmptyCodes.onlyIfStatusCodes = some [] ∧
    endpointEmptyCodes.AllowMethod (plainRequest "GET").Method = true ∧
    (plainResponse 201).Header.Get "Cache-Control" ≠ "no-store" ∧
    (plainResponse 201).StatusCode = 201 ∧
    endpointEmptyCodes.CanWrite (plainRequest "GET") (plainResponse 201) = true := by
  refine ⟨rfl, by decide, rfl, by decide, by decide, rfl, by decide⟩

/-- C10, amended: for an enabled endpoint with an empty status-code allow-list,
a request whose method is allowed and a response whose `Cache-Control` is not
"no-store", `CanWrite` admits exactly the status codes from 200 to 299: it is
true for 200 and for 201, and false for every code outside that range. -/
theorem CanWrite_empty_codes (e : EndpointCache) (r : Request) (p : Response)
    (he : e.enabled = true) (hd : 0 < e.duration) (hs : e.onlyIfStatusCodes = some [])
    (hm : e.AllowMethod r.Method = true) (hn : p.Header.Get "Cache-Control" ≠ "no-store") :
    (∀ s : Int, e.CanWrite r { p with StatusCode := s } = true ↔ (200 ≤ s ∧ s ≤ 299)) ∧
    e.CanWrite r { p with StatusCode := 200 } = true ∧
    e.CanWrite r { p with StatusCode := 201 } = true ∧
    (∀ s : Int, (s < 200 ∨ 299 < s) → e.CanWrite r { p with StatusCode := s } = false) := by
  have key : ∀ s : Int,
      e.CanWrite r { p with StatusCode := s } = true ↔ (200 ≤ s ∧ s ≤ 299) := by
    intro s
    rw [CanWrite_eq_true_iff, AllowStatusCode_of_empty e s hs]
    constructor
    · rintro ⟨_, _, _, _, h⟩
      exact h
    · intro h
      exact ⟨he, hd, fun hc => hn hc.2, hm, h⟩
  refine ⟨key, (key 200).mpr (by omega), (key 201).mpr (by omega), ?_⟩
  intro s hs'
  cases hv : e.CanWrite r { p with StatusCode := s }
  · rfl
  · have := (key s).mp hv
    omega

/-- The statement amending C10 at the endpoint `endpointEmptyCodes`, a GET request and a
response without headers. -/
theorem CanWrite_empty_codes_witness :
    (∀ s : Int, endpointEmptyCodes.CanWrite (plainRequest "GET")
        { plainResponse 201 with StatusCode := s } = true ↔ (200 ≤ s ∧ s ≤ 299)) ∧
    endpointEmptyCodes.CanWrite (plainRequest "GET")
        { plainResponse 201 with StatusCode := 200 } = true ∧
    endpointEmptyCodes.CanWrite (plainRequest "GET")
        { plainResponse 201 with StatusCode := 201 } = true ∧
    (∀ s : Int, (s < 200 ∨ 299 < s) → endpointEmptyCodes.CanWrite (plainRequest "GET")
        { plainResponse 201 with StatusCode := s } = false) :=
  CanWrite_empty_codes endpointEmptyCodes (plainRequest "GET") (plainResponse 201)
    rfl (by decide) rfl (by decide) (by decide)

/-! ## The cache key `StrategyKey` -/

/-- `helper.IsNotEmpty` holds for the strings other than the empty one. -/
theorem IsNotEmpty_iff (a : String) : helper.IsNotEmpty a = true ↔ a ≠ "" := by
  unfold helper.IsNotEmpty
  exact decide_eq_true_iff

/-- A string is empty when it has no character. -/
theorem eq_empty_iff_data (a : String) : a = "" ↔ a.data = [] := by
  constructor
  · intro h
    rw [h]
  · intro h
    exact String.ext h

/-- An append of two strings is empty only when both are. -/
theorem append_eq_empty_iff (a b : String) : a ++ b = "" ↔ a = "" ∧ b = "" := by
  rw [eq_empty_iff_data, eq_empty_iff_data, eq_empty_iff_data, String.data_append,
    List.append_eq_nil]

/-- Strings appended to the same string are equal when the results are. -/
theorem append_left_cancel (a b c : String) (h : a ++ b = a ++ c) : b = c := by
  apply String.ext
  have hd := congrArg String.data h
  rw [String.data_append, String.data_append] at hd
  exact List.append_cancel_left hd

/-- The loop gathers, after the values it started with, the non-empty values
of the names in order. -/
theorem strategyValuesLoop_eq (h : Header) (ks acc : List String) :
    strategyValuesLoop h ks acc = acc ++ (ks.map h.Get).filter (fun v => v ≠ "") := by
  induction ks generalizing acc with
  | nil => simp [strategyValuesLoop]
  | cons k ks ih =>
    by_cases hk : h.Get k = ""
    · simp [strategyValuesLoop, helper.IsNotEmpty, hk, ih]
    · simp [strategyValuesLoop, helper.IsNotEmpty, hk, ih]

/-- Every value gathered for the key is a non-empty string. -/
theorem strategyValuesOf_ne_empty (e : EndpointCache) (r : Request) :
    ∀ v ∈ strategyValuesOf e r, v ≠ "" := by
  intro v hv
  unfold strategyValuesOf at hv
  rw [List.mem_filter] at hv
  simpa using hv.2

/-- `stringsJoin` of a list with a first element. -/
theorem stringsJoin_cons (a : String) (t : List String) (sep : String) :
    stringsJoin (a :: t) sep = if t = [] then a else a ++ sep ++ stringsJoin t sep := by
  cases t with
  | nil => simp [stringsJoin]
  | cons b t => simp [stringsJoin]

/-- `stringsJoin` of a list whose first element is not empty is not empty. -/
theorem stringsJoin_ne_empty (a : String) (t : List String) (sep : String) (ha : a ≠ "") :
    stringsJoin (a :: t) sep ≠ "" := by
  rw [stringsJoin_cons]
  by_cases ht : t = []
  · simpa [ht] using ha
  · simp only [ht, if_false]
    intro h
    rw [String.append_assoc, append_eq_empty_iff] at h
    exact ha h.1

/-- The accumulating loop of `String.intercalate`, in terms of `stringsJoin`. -/
theorem intercalate_go_eq (acc sep : String) (l : List String) :
    String.intercalate.go acc sep l =
      if l = [] then acc else acc ++ sep ++ stringsJoin l sep := by
  induction l generalizing acc with
  | nil => simp [String.intercalate.go]
  | cons a t ih =>
    rw [String.intercalate.go, ih, stringsJoin_cons]
    by_cases ht : t = []
    · simp [ht]
    · simp [ht, String.append_assoc]

/-- `stringsJoin` is the `intercalate` of the separator. -/
theorem stringsJoin_eq_intercalate (l : List String) (sep : String) :
    stringsJoin l sep = sep.intercalate l := by
  cases l with
  | nil => simp [stringsJoin, String.intercalate]
  | cons a t =>
    rw [String.intercalate, intercalate_go_eq, stringsJoin_cons]

/-- The key `StrategyKey` builds: the method and the URL or path, followed by
the joined strategy values when there are any. -/
theorem StrategyKey_eq (e : EndpointCache) (r : Request) :
    e.StrategyKey r =
      if strategyValuesOf e r = [] then
        r.Method ++ ":" ++ (if e.ignoreQuery = true then r.Path else r.Url)
      else
        r.Method ++ ":" ++ (if e.ignoreQuery = true then r.Path else r.Url) ++ ":" ++
          stringsJoin (strategyValuesOf e r) ":" := by
  have hne := strategyValuesOf_ne_empty e r
  have hloop : strategyValuesLoop r.Header (e.strategyHeaders.getD []) [] =
      strategyValuesOf e r := by
    rw [strategyValuesLoop_eq, List.nil_append]
    rfl
  unfold EndpointCache.StrategyKey sprintfPair EndpointCache.IgnoreQuery
  simp only [hloop]
  generalize strategyValuesOf e r = vs at hne
  cases vs with
  | nil => simp [stringsJoin, helper.IsNotEmpty]
  | cons a t =>
    have ha : a ≠ "" := hne a (by simp)
    have hj := (IsNotEmpty_iff _).mpr (stringsJoin_ne_empty a t ":" ha)
    simp [hj]

/-- Two lists cut at an element that occurs in neither front part have equal
front parts and equal rest parts when they are equal. -/
theorem append_cons_inj_of_not_mem_front {α : Type} (c : α) (l1 l2 t1 t2 : List α)
    (h1 : c ∉ l1) (h2 : c ∉ l2) (h : l1 ++ c :: t1 = l2 ++ c :: t2) :
    l1 = l2 ∧ t1 = t2 := by
  induction l1 generalizing l2 with
  | nil =>
    cases l2 with
    | nil => simpa using h
    | cons b u =>
      simp only [List.nil_append, List.cons_append, List.cons.injEq] at h
      exact absurd (by simp [h.1]) h2
  | cons a u ih =>
    cases l2 with
    | nil =>
      simp only [List.nil_append, List.cons_append, List.cons.injEq] at h
      exact absurd (by simp [h.1]) h1
    | cons b w =>
      simp only [List.cons_append, List.cons.injEq] at h
      have hu : c ∉ u := fun hc => h1 (List.mem_cons_of_mem _ hc)
      have hw : c ∉ w := fun hc => h2 (List.mem_cons_of_mem _ hc)
      obtain ⟨e1, e2⟩ := ih w hu hw h.2
      exact ⟨by rw [h.1, e1], e2⟩

/-- Joining with ":" loses nothing on lists of non-empty values without ":". -/
theorem stringsJoin_colon_inj (l1 l2 : List String)
    (h1 : ∀ v ∈ l1, v ≠ "" ∧ ':' ∉ v.data) (h2 : ∀ v ∈ l2, v ≠ "" ∧ ':' ∉ v.data)
    (h : stringsJoin l1 ":" = stringsJoin l2 ":") : l1 = l2 := by
  induction l1 generalizing l2 with
  | nil =>
    cases l2 with
    | nil => rfl
    | cons b t2 =>
      exact absurd h.symm (stringsJoin_ne_empty b t2 ":" (h2 b (by simp)).1)
  | cons a t1 ih =>
    cases l2 with
    | nil => exact absurd h (stringsJoin_ne_empty a t1 ":" (h1 a (by simp)).1)
    | cons b t2 =>
      have ha := (h1 a (by simp)).2
      have hb := (h2 b (by simp)).2
      rw [stringsJoin_cons, stringsJoin_cons] at h
      by_cases e1 : t1 = [] <;> by_cases e2 : t2 = []
      · simp only [e1, e2, if_true] at h
        rw [h, e1, e2]
      · simp only [e1, e2, if_true, if_false] at h
        have hd := congrArg String.data h
        rw [String.data_append, String.data_append] at hd
        exact absurd (by rw [hd]; simp [show (":" : String).data = [':'] from rfl]) ha
      · simp only [e1, e2, if_true, if_false] at h
        have hd := congrArg String.data h
        rw [String.data_append, String.data_append] at hd
        exact absurd (by rw [← hd]; simp [show (":" : String).data = [':'] from rfl]) hb
      · simp only [e1, e2, if_false] at h
        have hd := congrArg String.data h
        rw [String.data_append, String.data_append, String.data_append, String.data_append,
          show (":" : String).data = [':'] from rfl, List.append_assoc, List.append_assoc,
          List.singleton_append, List.singleton_append] at hd
        obtain ⟨e3, e4⟩ := append_cons_inj_of_not_mem_front ':' _ _ _ _ ha hb hd
        have e5 : t1 = t2 :=
          ih t2 (fun v hv => h1 v (List.mem_cons_of_mem _ hv))
            (fun v hv => h2 v (List.mem_cons_of_mem _ hv)) (String.ext e4)
        rw [String.ext e3, e5]

/-- Two header sets that are empty at the same names and leave equal lists of
non-empty values agree at every name. -/
theorem filter_values_inj (g1 g2 : String → String) (ks : List String)
    (he : ∀ k ∈ ks, (g1 k = "" ↔ g2 k = ""))
    (h : (ks.map g1).filter (fun v => v ≠ "") = (ks.map g2).filter (fun v => v ≠ "")) :
    ∀ k ∈ ks, g1 k = g2 k := by
  induction ks with
  | nil => simp
  | cons k ks ih =>
    have hk := he k (by simp)
    have he' : ∀ x ∈ ks, (g1 x = "" ↔ g2 x = "") := fun x hx => he x (List.mem_cons_of_mem _ hx)
    by_cases e1 : g1 k = ""
    · have e2 : g2 k = "" := hk.mp e1
      simp only [List.map_cons, e1, e2] at h
      rw [List.filter_cons_of_neg (by simp), List.filter_cons_of_neg (by simp)] at h
      intro x hx
      rcases List.mem_cons.mp hx with rfl | hx
      · rw [e1, e2]
      · exact ih he' h x hx
    · have e2 : ¬ g2 k = "" := fun c => e1 (hk.mpr c)
      simp only [List.map_cons] at h
      rw [List.filter_cons_of_pos (by simpa using e1),
        List.filter_cons_of_pos (by simpa using e2), List.cons.injEq] at h
      intro x hx
      rcases List.mem_cons.mp hx with rfl | hx
      · exact h.1
      · exact ih he' h.2 x hx

/-- C11: `StrategyKey` is the method, ":" and the URL (the path when the query
is ignored) when no strategy header of the endpoint has a non-empty value in the
request, and otherwise that followed by ":" and the non-empty values, in the
declared order of the strategy headers, joined by ":". -/
theorem StrategyKey_reference (e : EndpointCache) (r : Request) :
    e.StrategyKey r =
      (let u := if e.ignoreQuery = true then r.Path else r.Url
       let vs := ((e.strategyHeaders.getD []).map r.Header.Get).filter (fun v => v ≠ "")
       if vs = [] then r.Method ++ ":" ++ u
       else r.Method ++ ":" ++ u ++ ":" ++ ":".intercalate vs) := by
  rw [StrategyKey_eq, stringsJoin_eq_intercalate]
  rfl

/-- The statement of C11 at two inputs: both strategy headers set and the query
ignored, and no strategy header set with the query kept. -/
theorem StrategyKey_reference_witness :
    endpointTwoHeadersNoQuery.StrategyKey (twoRequest "u" "v") = "GET:/a:u:v" ∧
    endpointTwoHeaders.StrategyKey (twoRequest "" "") = "GET:/a?x=1" :=
  ⟨(StrategyKey_reference endpointTwoHeadersNoQuery (twoRequest "u" "v")).trans (by decide),
    (StrategyKey_reference endpointTwoHeaders (twoRequest "" "")).trans (by decide)⟩

/-- C12, refuted as stated: with the strategy headers `X-A` and `X-B`, two
requests with the same method, URL and path whose value of `X-A` differs get
the same key, once because an empty value is skipped and once because a value
holds the separator. -/
theorem StrategyKey_collision :
    (twoRequest "v" "").Method = (twoRequest "" "v").Method ∧
    (twoRequest "v" "").Url = (twoRequest "" "v").Url ∧
    (twoRequest "v" "").Path = (twoRequest "" "v").Path ∧
    "X-A" ∈ endpointTwoHeaders.strategyHeaders.getD [] ∧
    (twoRequest "v" "").Header.Get "X-A" ≠ (twoRequest "" "v").Header.Get "X-A" ∧
    endpointTwoHeaders.StrategyKey (twoRequest "v" "") =
      endpointTwoHeaders.StrategyKey (twoRequest "" "v") ∧
    (twoRequest "u:v" "").Header.Get "X-A" ≠ (twoRequest "u" "v").Header.Get "X-A" ∧
    endpointTwoHeaders.StrategyKey (twoRequest "u:v" "") =
      endpointTwoHeaders.StrategyKey (twoRequest "u" "v") := by
  refine ⟨rfl, rfl, rfl, by decide, by decide, by decide, by decide, by decide⟩

/-- C12, amended: for two requests with the same method, URL and path, in
which no value of a strategy header holds ":" and every strategy header is
empty in the one exactly when it is empty in the other, a strategy header whose
value differs makes the keys differ. -/
theorem StrategyKey_distinguishes (e : EndpointCache) (r1 r2 : Request)
    (hm : r1.Method = r2.Method) (hu : r1.Url = r2.Url) (hp : r1.Path = r2.Path)
    (hc : ∀ k ∈ e.strategyHeaders.getD [],
      ':' ∉ (r1.Header.Get k).data ∧ ':' ∉ (r2.Header.Get k).data)
    (he : ∀ k ∈ e.strategyHeaders.getD [], (r1.Header.Get k = "" ↔ r2.Header.Get k = ""))
    (hd : ∃ k ∈ e.strategyHeaders.getD [], r1.Header.Get k ≠ r2.Header.Get k) :
    e.StrategyKey r1 ≠ e.StrategyKey r2 := by
  intro hk
  obtain ⟨k, hks, hne⟩ := hd
  apply hne
  apply filter_values_inj r1.Header.Get r2.Header.Get _ he _ k hks
  change strategyValuesOf e r1 = strategyValuesOf e r2
  have hv1 : ∀ v ∈ strategyValuesOf e r1, v ≠ "" ∧ ':' ∉ v.data := by
    intro v hv
    refine ⟨strategyValuesOf_ne_empty e r1 v hv, ?_⟩
    unfold strategyValuesOf at hv
    obtain ⟨x, hx, rfl⟩ := List.mem_map.mp (List.mem_filter.mp hv).1
    exact (hc x hx).1
  have hv2 : ∀ v ∈ strategyValuesOf e r2, v ≠ "" ∧ ':' ∉ v.data := by
    intro v hv
    refine ⟨strategyValuesOf_ne_empty e r2 v hv, ?_⟩
    unfold strategyValuesOf at hv
    obtain ⟨x, hx, rfl⟩ := List.mem_map.mp (List.mem_filter.mp hv).1
    exact (hc x hx).2
  rw [StrategyKey_eq, StrategyKey_eq, hm, hu, hp] at hk
  have hcolon : (":" : String) ≠ "" := by decide
  by_cases e1 : strategyValuesOf e r1 = [] <;> by_cases e2 : strategyValuesOf e r2 = []
  · rw [e1, e2]
  · simp only [e1, e2, if_true, if_false] at hk
    rw [String.append_assoc _ ":" (stringsJoin _ _)] at hk
    have hx : "" = ":" ++ stringsJoin (strategyValuesOf e r2) ":" :=
      append_left_cancel _ _ _ ((String.append_empty _).trans hk)
    exact absurd ((append_eq_empty_iff _ _).mp hx.symm).1 hcolon
  · simp only [e1, e2, if_true, if_false] at hk
    rw [String.append_assoc _ ":" (stringsJoin _ _)] at hk
    have hx : ":" ++ stringsJoin (strategyValuesOf e r1) ":" = "" :=
      append_left_cancel _ _ _ (hk.trans (String.append_empty _).symm)
    exact absurd ((append_eq_empty_iff _ _).mp hx).1 hcolon
  · simp only [e1, e2, if_false] at hk
    exact stringsJoin_colon_inj _ _ hv1 hv2 (append_left_cancel _ _ _ hk)

/-- The statement amending C12 at two requests that differ in the value of `X-B`. -/
theorem StrategyKey_distinguishes_witness :
    endpointTwoHeaders.StrategyKey (twoRequest "u" "v") ≠
      endpointTwoHeaders.StrategyKey (twoRequest "u" "w") :=
  StrategyKey_distinguishes endpointTwoHeaders (twoRequest "u" "v") (twoRequest "u" "w")
    rfl rfl rfl (by decide) (by decide) (by decide)

/-- C13: two requests with the same method, the same value for every strategy
header of the endpoint, and the same URL (the same path when the query is
ignored) get the same key, whatever else differs between them. -/
theorem StrategyKey_depends_only (e : EndpointCache) (r1 r2 : Request)
    (hm : r1.Method = r2.Method)
    (hh : ∀ k ∈ e.strategyHeaders.getD [], r1.Header.Get k = r2.Header.Get k)
    (hu : e.ignoreQuery = false → r1.Url = r2.Url)
    (hp : e.ignoreQuery = true → r1.Path = r2.Path) :
    e.StrategyKey r1 = e.StrategyKey r2 := by
  have hv : strategyValuesOf e r1 = strategyValuesOf e r2 := by
    unfold strategyValuesOf
    rw [List.map_congr_left hh]
  have hb : (if e.ignoreQuery = true then r1.Path else r1.Url) =
      (if e.ignoreQuery = true then r2.Path else r2.Url) := by
    cases hq : e.ignoreQuery
    · simpa using hu hq
    · simpa using hp hq
  rw [StrategyKey_eq, StrategyKey_eq, hv, hb, hm]

/-- The statement of C13 at the requests `/a?x=1` and `/a?x=2` with the query
ignored, the second with further headers. -/
theorem StrategyKey_depends_only_witness :
    (twoRequest "u" "v").Url ≠ (noisyRequest "u" "v").Url ∧
    (twoRequest "u" "v").Header.Get "X-C" ≠ (noisyRequest "u" "v").Header.Get "X-C" ∧
    endpointTwoHeadersNoQuery.StrategyKey (twoRequest "u" "v") =
      endpointTwoHeadersNoQuery.StrategyKey (noisyRequest "u" "v") :=
  ⟨by decide, by decide,
    StrategyKey_depends_only endpointTwoHeadersNoQuery (twoRequest "u" "v")
      (noisyRequest "u" "v") rfl (by decide) (by decide) (by decide)⟩

/-! ## The `Cache-Control` gate -/

/-- C14: when `allowCacheControl` is nil or points to false, `CacheControlEnum`
is the empty directive for every header set, and `CanRead` and `CanWrite` give
the same result for requests and responses that differ only in their
`Cache-Control` header. -/
theorem CacheControl_not_honoured (e : EndpointCache)
    (ha : e.allowCacheControl = none ∨ e.allowCacheControl = some false) :
    (∀ h : Header, e.CacheControlEnum h = "") ∧
    (∀ r1 r2 : Request, r1.Method = r2.Method → r1.Url = r2.Url → r1.Path = r2.Path →
      (∀ k : String, k ≠ "Cache-Control" → r1.Header.Get k = r2.Header.Get k) →
      e.CanRead r1 = e.CanRead r2) ∧
    (∀ (r1 r2 : Request) (p1 p2 : Response),
      r1.Method = r2.Method → r1.Url = r2.Url → r1.Path = r2.Path →
      (∀ k : String, k ≠ "Cache-Control" → r1.Header.Get k = r2.Header.Get k) →
      p1.StatusCode = p2.StatusCode →
      (∀ k : String, k ≠ "Cache-Control" → p1.Header.Get k = p2.Header.Get k) →
      e.CanWrite r1 p1 = e.CanWrite r2 p2) := by
  have hn : ¬ e.allowCacheControl = some true := by
    rcases ha with h | h <;> simp [h]
  have hz : ∀ h : Header, e.CacheControlEnum h = "" := by
    intro h
    rw [CacheControlEnum_eq, if_neg hn]
  refine ⟨hz, ?_, ?_⟩
  · intro r1 r2 hm _ _ _
    unfold EndpointCache.CanRead
    simp only [hz, hm]
  · intro r1 r2 p1 p2 hm _ _ _ hs _
    unfold EndpointCache.CanWrite
    simp only [hz, hm, hs]

/-- The statement of C14 at the endpoint `endpointEmptyMethods`, whose
`allowCacheControl` is nil: a GET request that says "no-cache" is admitted like
the plain one, and a response that says "no-store" like the plain one. -/
theorem CacheControl_not_honoured_witness :
    endpointEmptyMethods.CacheControlEnum (cacheControlHeader "no-cache") = "" ∧
    endpointEmptyMethods.CanRead (directiveRequest "no-cache") =
      endpointEmptyMethods.CanRead (plainRequest "GET") ∧
    endpointEmptyMethods.CanRead (plainRequest "GET") = true ∧
    endpointEmptyMethods.CanWrite (plainRequest "GET") (directiveResponse "no-store") =
      endpointEmptyMethods.CanWrite (plainRequest "GET") (plainResponse 200) ∧
    endpointEmptyMethods.CanWrite (plainRequest "GET") (plainResponse 200) = true :=
  ⟨(CacheControl_not_honoured endpointEmptyMethods (Or.inl rfl)).1 _,
    (CacheControl_not_honoured endpointEmptyMethods (Or.inl rfl)).2.1 _ _ rfl rfl rfl
      (fun k hk => by simp [directiveRequest, plainRequest, cacheControlHeader, emptyHeader, hk]),
    by decide,
    (CacheControl_not_honoured endpointEmptyMethods (Or.inl rfl)).2.2 _ _ _ _ rfl rfl rfl
      (fun _ _ => rfl) rfl
      (fun k hk => by
        simp [directiveResponse, plainResponse, cacheControlHeader, emptyHeader, hk]),
    by decide⟩

/-! ## The accessors `Cache.Duration` and `Enabled` -/

/-- C15: `Cache.Duration` is the duration field when that is positive and one
minute, 60000000000 nanoseconds, otherwise; it is always positive. -/
theorem Cache_Duration_default (c : Cache) :
    (0 < c.duration → c.Duration = c.duration) ∧
    (c.duration ≤ 0 → c.Duration = timeMinute) ∧
    timeMinute = 60000000000 ∧
    0 < c.Duration := by
  unfold Cache.Duration helper.IsGreaterThan timeMinute
  refine ⟨?_, ?_, rfl, ?_⟩
  · intro h
    simp [h]
  · intro h
    have h' : ¬ (0 < c.duration) := by omega
    simp [h']
  · by_cases h : 0 < c.duration
    · simp [h]
    · simp [h]

/-- The statement of C15 at the root `rootFull`, which has a duration, and at
the root `rootGetOnly`, which has none. -/
theorem Cache_Duration_default_witness :
    rootFull.Duration = 5000000000 ∧ rootGetOnly.Duration = 60000000000 :=
  ⟨(Cache_Duration_default rootFull).1 (by decide),
    (Cache_Duration_default rootGetOnly).2.1 (by decide)⟩

/-- C16, refuted as stated: the status-code allow-list of `endpointEmptyCodes`
is empty, yet the status code 404 is not allowed. -/
theorem AllowStatusCode_empty_rejects_404 :
    endpointEmptyCodes.onlyIfStatusCodes = some [] ∧
    endpointEmptyCodes.AllowStatusCode 404 = false := by
  refine ⟨rfl, by decide⟩

/-- C16, amended: with a nil status-code allow-list every status code is
allowed; with a non-nil one a status code is allowed exactly when it is in the
list, or the list is empty and the code lies between 200 and 299. -/
theorem AllowStatusCode_by_list (e : EndpointCache) :
    (e.onlyIfStatusCodes = none → ∀ s : Int, e.AllowStatusCode s = true) ∧
    (∀ l : List Int, e.onlyIfStatusCodes = some l → ∀ s : Int,
      (e.AllowStatusCode s = true ↔ (s ∈ l ∨ (l = [] ∧ 200 ≤ s ∧ s ≤ 299)))) := by
  constructor
  · intro h s
    simp [EndpointCache.AllowStatusCode, helper.IsNil, h]
  · intro l h s
    cases l with
    | nil =>
      simp [EndpointCache.AllowStatusCode, helper.IsNil, helper.IsEmpty, helper.Contains,
        helper.IsGreaterThanOrEqual, helper.IsLessThanOrEqual, h]
    | cons a t =>
      simp [EndpointCache.AllowStatusCode, helper.IsNil, helper.IsEmpty, helper.Contains, h]

/-- C17, refuted as stated: the method allow-list of `endpointEmptyMethods` is
empty, yet the method POST is not allowed. -/
theorem AllowMethod_empty_rejects_POST :
    endpointEmptyMethods.onlyIfMethods = some [] ∧
    endpointEmptyMethods.AllowMethod "POST" = false := by
  refine ⟨rfl, by decide⟩

/-- C17, amended: with a nil method allow-list every method is allowed; with a
non-nil one a method is allowed exactly when it is in the list, or the list is
empty and the method is GET. -/
theorem AllowMethod_by_list (e : EndpointCache) :
    (e.onlyIfMethods = none → ∀ m : String, e.AllowMethod m = true) ∧
    (∀ l : List String, e.onlyIfMethods = some l → ∀ m : String,
      (e.AllowMethod m = true ↔ (m ∈ l ∨ (l = [] ∧ m = "GET")))) := by
  constructor
  · intro h m
    simp [EndpointCache.AllowMethod, helper.IsNil, h]
  · intro l h m
    cases l with
    | nil =>
      simp [EndpointCache.AllowMethod, helper.IsNil, helper.IsEmpty, helper.Equals,
        helper.Contains, httpMethodGet, h]
    | cons a t =>
      simp [EndpointCache.AllowMethod, helper.IsNil, helper.IsEmpty, helper.Contains, h]

/-- C18, refuted as stated: the enabled field of `endpointBare` is true, yet
`Enabled` is false, the endpoint having no duration. -/
theorem Enabled_ne_enabled_field :
    endpointBare.enabled = true ∧ endpointBare.Enabled = false ∧
    endpointBare.Disabled = true := by
  refine ⟨rfl, by decide, by decide⟩

/-- C18, amended: `Enabled` is true exactly when the enabled field is true and
the duration is positive, so with a positive duration it is the enabled field;
`Disabled` is the negation of `Enabled`. -/
theorem Enabled_characterised (e : EndpointCache) :
    (e.Enabled = true ↔ (e.enabled = true ∧ 0 < e.duration)) ∧
    (0 < e.duration → e.Enabled = e.enabled) ∧
    e.Disabled = !e.Enabled := by
  refine ⟨Enabled_iff e, ?_, rfl⟩
  intro h
  simp [EndpointCache.Enabled, EndpointCache.HasDuration, helper.IsGreaterThan, h]

/-- C19: `newEndpointCache` returns nil exactly when both arguments are nil;
with a nil parent and an endpoint, every field the endpoint does not set has its
zero value: duration 0, nil lists, nil allowCacheControl. -/
theorem newEndpointCache_nil_iff (parent : Option Cache) (child : Option EndpointCache) :
    (newEndpointCache parent child = none ↔ (parent = none ∧ child = none)) ∧
    ((parent ≠ none ∨ child ≠ none) →
      ∃ m : EndpointCache, newEndpointCache parent child = some m) ∧
    (∀ ch : EndpointCache, ∃ m : EndpointCache, newEndpointCache none (some ch) = some m ∧
      m.duration = (if ch.HasDuration = true then ch.duration else 0) ∧
      m.strategyHeaders = (if ch.HasStrategyHeaders = true then ch.strategyHeaders else none) ∧
      m.onlyIfStatusCodes =
        (if ch.HasOnlyIfStatusCodes = true then ch.onlyIfStatusCodes else none) ∧
      m.onlyIfMethods = none ∧
      m.allowCacheControl =
        (if ch.HasAllowCacheControl = true then ch.allowCacheControl else none)) := by
  refine ⟨?_, ?_, ?_⟩
  · cases parent <;> cases child <;> simp [newEndpointCache, helper.IsNil]
  · intro h
    cases parent <;> cases child <;> simp [newEndpointCache, helper.IsNil] at h ⊢
  · intro ch
    refine ⟨_, newEndpointCache_some none ch, ?_⟩
    by_cases h0 : ch.HasDuration = true <;>
    by_cases h1 : ch.HasStrategyHeaders = true <;>
    by_cases h2 : ch.HasAllowCacheControl = true <;>
    by_cases h3 : ch.HasOnlyIfStatusCodes = true <;>
    simp [fromEndpoint, fromRoot, zeroEndpointCache, h0, h1, h2, h3, EndpointCache.Duration,
      EndpointCache.StrategyHeaders, EndpointCache.AllowCacheControl,
      EndpointCache.OnlyIfStatusCodes]

/-- The statement of C19 at four inputs: both nil, only a root, only an
endpoint, and the fields of the merge of no root with `endpointBare`. -/
theorem newEndpointCache_nil_iff_witness :
    newEndpointCache none none = none ∧
    (∃ m : EndpointCache, newEndpointCache (some rootFull) none = some m) ∧
    (∃ m : EndpointCache, newEndpointCache none (some endpointBare) = some m ∧
      m.duration = 0 ∧ m.strategyHeaders = none ∧ m.onlyIfStatusCodes = none ∧
      m.onlyIfMethods = none ∧ m.allowCacheControl = none) :=
  ⟨(newEndpointCache_nil_iff none none).1.mpr ⟨rfl, rfl⟩,
    (newEndpointCache_nil_iff (some rootFull) none).2.1 (Or.inl (by simp)),
    (newEndpointCache_nil_iff none none).2.2 endpointBare⟩

/-! ## `fillEnvValues` -/

/-- C20, evaluated where it fails: in the text `$HOST $HOST_PORT`, with `HOST`
set to `h` and `HOST_PORT` set to `80`, replacing the word `$HOST` everywhere
in the text also rewrites the beginning of `$HOST_PORT`; the result is
`h h_PORT`, whereas replacing each occurrence by the value of its own variable
gives `h 80`. With `HOST_PORT` unset the word `$HOST_PORT` is rewritten as well,
although it should be left unchanged. -/
theorem fillEnvValues_longer_word :
    (findAllWords "$HOST $HOST_PORT".data none).map String.mk = ["$HOST", "$HOST_PORT"] ∧
    sampleGetenv "HOST" = "h" ∧ sampleGetenv "HOST_PORT" = "80" ∧
    fillEnvValues sampleGetenv "$HOST $HOST_PORT" = "h h_PORT" ∧
    fillEnvValuesByOccurrence sampleGetenv "$HOST $HOST_PORT" = "h 80" ∧
    fillEnvValues (fun k => if k = "HOST" then "h" else "") "$HOST_PORT $HOST" = "h_PORT h" ∧
    fillEnvValuesByOccurrence (fun k => if k = "HOST" then "h" else "") "$HOST_PORT $HOST" =
      "$HOST_PORT h" := by
  refine ⟨by decide, by decide, by decide, by decide, by decide, by decide, by decide⟩

/-! ## Configuration file locations -/

/-- C21, evaluated where it fails: the documented formats are `./gopen/{env}.env`
and `./gopen/{env}.json`, which for the environment `dev` are `./gopen/dev.env`
and `./gopen/dev.json`; the format strings of the two functions hold a `/`
after the name, so that they return `./gopen/dev/.env` and `./gopen/dev/.json`. -/
theorem getFileUri_dev :
    getFileEnvUri "dev" = "./gopen/dev/.env" ∧
    getFileEnvUri "dev" ≠ "./gopen/" ++ "dev" ++ ".env" ∧
    getFileJsonUri "dev" = "./gopen/dev/.json" ∧
    getFileJsonUri "dev" ≠ "./gopen/" ++ "dev" ++ ".json" := by
  refine ⟨by decide, by decide, by decide, by decide⟩

end Gopen
